import Mathlib

/-
Shallow embedding of the DSP core of the Interleaf parametric equalizer
(src/biquad_filters.rs and the per-sample processing loop of src/lib.rs).
IEEE-754 single-precision values are modelled as real numbers; every
arithmetic step mirrors the source expression for expression.
-/

namespace Interleaf

noncomputable section

open Classical

/-- Stereo pair of per-channel values: index 0 (LEFT) and index 1 (RIGHT) of
the source's two-element channel arrays. -/
structure Stereo where
  left : ℝ
  right : ℝ

/-- Filter types implemented by the coefficient solver (enum FilterType). -/
inductive FilterType where
  | LowPass
  | HighPass
  | BandPass
  | Notch
  | Peak
  | LowShelf
  | HighShelf
deriving DecidableEq

/-- The six biquad coefficients (struct BiquadCoefficients). -/
structure BiquadCoefficients where
  b0 : ℝ
  b1 : ℝ
  b2 : ℝ
  a0 : ℝ
  a1 : ℝ
  a2 : ℝ

/-- Coefficient assignment from the intermediate variables
(BiquadCoefficients::new).  `10.0_f32.powf x` is modelled as the real power
`(10 : ℝ) ^ (x : ℝ)`. -/
def BiquadCoefficients.new (biquad_type : FilterType) (alpha omega peak_gain : ℝ) :
    BiquadCoefficients :=
  let cos_omega := Real.cos omega
  let sin_omega := Real.sin omega
  match biquad_type with
  | .LowPass =>
      { b0 := (1 - cos_omega) / 2
        b1 := 1 - cos_omega
        b2 := (1 - cos_omega) / 2
        a0 := 1 + alpha
        a1 := -2 * cos_omega
        a2 := 1 - alpha }
  | .HighPass =>
      { b0 := (1 + cos_omega) / 2
        b1 := -(1 + cos_omega)
        b2 := (1 + cos_omega) / 2
        a0 := 1 + alpha
        a1 := -2 * cos_omega
        a2 := 1 - alpha }
  | .BandPass =>
      { b0 := sin_omega / 2
        b1 := 0
        b2 := -sin_omega / 2
        a0 := 1 + alpha
        a1 := -2 * cos_omega
        a2 := 1 - alpha }
  | .Notch =>
      { b0 := 1
        b1 := -2 * cos_omega
        b2 := 1
        a0 := 1 + alpha
        a1 := -2 * cos_omega
        a2 := 1 - alpha }
  | .Peak =>
      let A := Real.sqrt ((10 : ℝ) ^ (peak_gain / 40))
      { b0 := 1 + alpha * A
        b1 := -2 * cos_omega
        b2 := 1 - alpha * A
        a0 := 1 + alpha / A
        a1 := -2 * cos_omega
        a2 := 1 - alpha / A }
  | .LowShelf =>
      let A := Real.sqrt ((10 : ℝ) ^ (peak_gain / 40))
      let sqrt_a_2_alpha := 2 * Real.sqrt A * alpha
      { b0 := A * ((A + 1) - (A - 1) * cos_omega + sqrt_a_2_alpha)
        b1 := 2 * A * ((A - 1) - (A + 1) * cos_omega)
        b2 := A * ((A + 1) - (A - 1) * cos_omega - sqrt_a_2_alpha)
        a0 := (A + 1) + (A - 1) * cos_omega + sqrt_a_2_alpha
        a1 := -2 * ((A - 1) + (A + 1) * cos_omega)
        a2 := (A + 1) + (A - 1) * cos_omega - sqrt_a_2_alpha }
  | .HighShelf =>
      let A := Real.sqrt ((10 : ℝ) ^ (peak_gain / 40))
      let sqrt_a_2_alpha := 2 * Real.sqrt A * alpha
      { b0 := A * ((A + 1) + (A - 1) * cos_omega + sqrt_a_2_alpha)
        b1 := -2 * A * ((A - 1) + (A + 1) * cos_omega)
        b2 := A * ((A + 1) + (A - 1) * cos_omega - sqrt_a_2_alpha)
        a0 := (A + 1) - (A - 1) * cos_omega + sqrt_a_2_alpha
        a1 := 2 * ((A - 1) - (A + 1) * cos_omega)
        a2 := (A + 1) - (A - 1) * cos_omega - sqrt_a_2_alpha }

/-- The main Biquad struct.  `input_history0`/`input_history1` are
`input_history[0]`/`input_history[1]` of the source (each a stereo pair
indexed by channel), and likewise for the output history. -/
structure Biquad where
  biquad_type : FilterType
  sample_rate : ℝ
  center_freq : ℝ
  gain_db : ℝ
  q_factor : ℝ
  input_history0 : Stereo
  input_history1 : Stereo
  output_history0 : Stereo
  output_history1 : Stereo
  coeffs : BiquadCoefficients

/-- Biquad::new. -/
def Biquad.new (sample_rate center_freq gain_db q_factor : ℝ)
    (biquad_type : FilterType) : Biquad :=
  let omega := 2 * Real.pi * center_freq / sample_rate
  let alpha := Real.sin omega / (2 * q_factor)
  { biquad_type := biquad_type
    sample_rate := sample_rate
    center_freq := center_freq
    gain_db := gain_db
    q_factor := q_factor
    input_history0 := ⟨0, 0⟩
    input_history1 := ⟨0, 0⟩
    output_history0 := ⟨0, 0⟩
    output_history1 := ⟨0, 0⟩
    coeffs := BiquadCoefficients.new biquad_type alpha omega gain_db }

/-- Biquad::update.  The source assigns each of the four parameter fields
only when it differs from the argument; assigning an equal value is the
identity, so the four conditional assignments collapse to one unconditional
record update guarded by the disjunction `recalc` of the four comparisons.
On recalculation the source reads `self.gain_db`, which at that point equals
the argument `gain_db`. -/
def Biquad.update (s : Biquad) (sample_rate center_freq gain_db q_factor : ℝ) :
    Biquad :=
  let recalc := s.sample_rate ≠ sample_rate ∨ s.center_freq ≠ center_freq ∨
      s.gain_db ≠ gain_db ∨ s.q_factor ≠ q_factor
  let s' := { s with
    sample_rate := sample_rate
    center_freq := center_freq
    gain_db := gain_db
    q_factor := q_factor }
  if recalc then
    let omega := 2 * Real.pi * center_freq / sample_rate
    let alpha := Real.sin omega / (2 * q_factor)
    { s' with coeffs := BiquadCoefficients.new s.biquad_type alpha omega gain_db }
  else
    s'

/-- Biquad::process_sample, Direct Form I.  The left channel is computed and
its history shifted first, then the right channel from the intermediate
state `sL` (whose right-channel fields are untouched by the left-channel
shift), exactly as in the source. -/
def Biquad.process_sample (s : Biquad) (input_l input_r : ℝ) :
    (ℝ × ℝ) × Biquad :=
  let c := s.coeffs
  let output_l :=
    (c.b0 / c.a0) * input_l +
    (c.b1 / c.a0) * s.input_history0.left +
    (c.b2 / c.a0) * s.input_history1.left -
    (c.a1 / c.a0) * s.output_history0.left -
    (c.a2 / c.a0) * s.output_history1.left
  let sL := { s with
    input_history1 := ⟨s.input_history0.left, s.input_history1.right⟩
    input_history0 := ⟨input_l, s.input_history0.right⟩
    output_history1 := ⟨s.output_history0.left, s.output_history1.right⟩
    output_history0 := ⟨output_l, s.output_history0.right⟩ }
  let output_r :=
    (c.b0 / c.a0) * input_r +
    (c.b1 / c.a0) * sL.input_history0.right +
    (c.b2 / c.a0) * sL.input_history1.right -
    (c.a1 / c.a0) * sL.output_history0.right -
    (c.a2 / c.a0) * sL.output_history1.right
  let sR := { sL with
    input_history1 := ⟨sL.input_history1.left, sL.input_history0.right⟩
    input_history0 := ⟨sL.input_history0.left, input_r⟩
    output_history1 := ⟨sL.output_history1.left, sL.output_history0.right⟩
    output_history0 := ⟨sL.output_history0.left, output_r⟩ }
  ((output_l, output_r), sR)

/-- Modelled from the spec: struct `InterleavedBiquad` is referenced by
lib.rs but its definition is not among the available sources.  Per the spec
it owns an ordered sequence of 1-10 coefficient/history slots (coefficients
recomputed identically across slots, each slot with its own history, so each
slot is modelled as a full `Biquad`) and an active-slot index that always
lies in `[0, N)`. -/
structure InterleavedBiquad where
  slots : List Biquad
  index : ℕ

/-- Modelled from the spec: `newInterleavedBiquad(sampleRate, centerFreq,
gainDb, Q, type, interleaveDepth)` builds `interleaveDepth` identical slots;
the active index starts in range, at slot 0. -/
def InterleavedBiquad.new (sample_rate center_freq gain_db q_factor : ℝ)
    (biquad_type : FilterType) (interleave_depth : ℕ) : InterleavedBiquad :=
  { slots := List.replicate interleave_depth
      (Biquad.new sample_rate center_freq gain_db q_factor biquad_type)
    index := 0 }

/-- Modelled from the spec: `increment_index()` advances the active slot
pointer by one, modulo the configured interleave count. -/
def InterleavedBiquad.increment_index (s : InterleavedBiquad) : InterleavedBiquad :=
  { s with index := (s.index + 1) % s.slots.length }

/-- Modelled from the spec: `process_sample(l, r)` filters using the
currently active slot's history/coefficients, per the same recursion as the
plain Biquad.  Under the spec's invariant the index is always in range; out
of range (unspecified by the spec) the sample passes through unchanged. -/
def InterleavedBiquad.process_sample (s : InterleavedBiquad) (l r : ℝ) :
    (ℝ × ℝ) × InterleavedBiquad :=
  match s.slots[s.index]? with
  | some b =>
      let p := b.process_sample l r
      (p.1, { s with slots := s.slots.set s.index p.2 })
  | none => ((l, r), s)

/-- Modelled from the spec: `update(...)` applies the lazy-recompute
contract of Biquad::update to every slot's coefficients uniformly. -/
def InterleavedBiquad.update (s : InterleavedBiquad)
    (sample_rate center_freq gain_db q_factor : ℝ) : InterleavedBiquad :=
  { s with slots := s.slots.map (fun b => b.update sample_rate center_freq gain_db q_factor) }

/-
The per-sample band loop of Interleaf::process (lib.rs lines 788-814 for the
interleaved branch and 848-873 for the plain branch).  Both branches share
one loop shape and differ only in the filter state type and in the body of
one pass, so the loop is embedded once, generically in a step function, and
instantiated twice below.
-/

/-- Apply `step` to the running sample `n` times, feeding each pass's output
back in as the next pass's input (the iterations `i = 1..` of the source's
inner `for i in 0..=oversampling` loop, plus the non-sentinel first pass). -/
def repeatStep {σ : Type} (step : σ → ℝ → ℝ → (ℝ × ℝ) × σ) :
    ℕ → σ → ℝ → ℝ → (ℝ × ℝ) × σ
  | 0, s, l, r => ((l, r), s)
  | n + 1, s, l, r =>
      let p := step s l r
      repeatStep step n p.2 p.1.1 p.1.2

/-- One band's inner loop (source `for i in 0..=oversampling` with `os + 1`
iterations): the `i = 0` pass reads the original input pair when
`temp_l == -2.0` (the sentinel the source initialises `temp_l` with) and the
running pair otherwise; every later pass reads the running pair. -/
def bandPass {σ : Type} (step : σ → ℝ → ℝ → (ℝ × ℝ) × σ) (os : ℕ) (s : σ)
    (in_l in_r temp_l temp_r : ℝ) : (ℝ × ℝ) × σ :=
  let first := if temp_l = -2 then step s in_l in_r else step s temp_l temp_r
  repeatStep step os first.2 first.1.1 first.1.2

/-- The outer loop over the band array, threading the running sample pair
`(temp_l, temp_r)` and returning the final pair together with the updated
filter states. -/
def bandChain {σ : Type} (step : σ → ℝ → ℝ → (ℝ × ℝ) × σ) (os : ℕ)
    (in_l in_r : ℝ) : List σ → ℝ → ℝ → (ℝ × ℝ) × List σ
  | [], temp_l, temp_r => ((temp_l, temp_r), [])
  | s :: rest, temp_l, temp_r =>
      let p := bandPass step os s in_l in_r temp_l temp_r
      let q := bandChain step os in_l in_r rest p.1.1 p.1.2
      (q.1, p.2 :: q.2)

/-- The whole band-processing block of Interleaf::process for one incoming
sample pair: `temp_l`/`temp_r` start at the sentinel `-2.0`, and
`processed_sample_l`/`processed_sample_r` keep their initial `0.0` when the
band array is empty (it has five entries in the source). -/
def processBands {σ : Type} (step : σ → ℝ → ℝ → (ℝ × ℝ) × σ) (os : ℕ)
    (bands : List σ) (in_l in_r : ℝ) : (ℝ × ℝ) × List σ :=
  match bands with
  | [] => ((0, 0), [])
  | _ => bandChain step os in_l in_r bands (-2) (-2)

/-- One pass of the plain (non-interleaved) branch: Biquad::process_sample. -/
def biquadStep (b : Biquad) (l r : ℝ) : (ℝ × ℝ) × Biquad :=
  b.process_sample l r

/-- One pass of the interleaved branch: InterleavedBiquad::process_sample
followed by `increment_index()`, which the source calls after every pass of
the inner loop. -/
def interleavedStep (s : InterleavedBiquad) (l r : ℝ) :
    (ℝ × ℝ) × InterleavedBiquad :=
  let p := s.process_sample l r
  (p.1, p.2.increment_index)

/-- The cascade semantics stated by the spec (claim wording, for comparison
with `processBands`): each band applies its `os + 1` passes to the running
sample, and the full output of band `i` is the input of band `i + 1` -- no
sentinel re-reading of the original input. -/
def specCascade {σ : Type} (step : σ → ℝ → ℝ → (ℝ × ℝ) × σ) (os : ℕ) :
    List σ → ℝ → ℝ → (ℝ × ℝ) × List σ
  | [], l, r => ((l, r), [])
  | s :: rest, l, r =>
      let p := repeatStep step (os + 1) s l r
      let q := specCascade step os rest p.1.1 p.1.2
      (q.1, p.2 :: q.2)

/-- The running left-channel values produced after each band of the spec
cascade (the values the source compares against its `-2.0` sentinel). -/
def cascadeLefts {σ : Type} (step : σ → ℝ → ℝ → (ℝ × ℝ) × σ) (os : ℕ) :
    List σ → ℝ → ℝ → List ℝ
  | [], _, _ => []
  | s :: rest, l, r =>
      let p := repeatStep step (os + 1) s l r
      p.1.1 :: cascadeLefts step os rest p.1.1 p.1.2

/-- The dry/wet cross-fade of Interleaf::process (lib.rs lines 876-880),
for one channel: `wet_gain = dry_wet`, `dry_gain = 1.0 - dry_wet`,
`in * dry_gain + processed * wet_gain`. -/
def mixSample (dry_wet in_s processed : ℝ) : ℝ :=
  let wet_gain := dry_wet
  let dry_gain := 1 - dry_wet
  in_s * dry_gain + processed * wet_gain

/-- A concrete filter state used to instantiate universally quantified
theorems: unit pass-through coefficients and cleared history. -/
def testFilter : Biquad :=
  { biquad_type := .Peak
    sample_rate := 44100
    center_freq := 1000
    gain_db := 0
    q_factor := 1
    input_history0 := ⟨0, 0⟩
    input_history1 := ⟨0, 0⟩
    output_history0 := ⟨0, 0⟩
    output_history1 := ⟨0, 0⟩
    coeffs := ⟨1, 0, 0, 1, 0, 0⟩ }

/-- A concrete single-slot interleaved filter built on `testFilter`. -/
def testIBand : InterleavedBiquad := ⟨[testFilter], 0⟩

/-- C1: Biquad::process_sample returns, for each channel independently,
`y[n] = (b0*x[n] + b1*x[n-1] + b2*x[n-2] - a1*y[n-1] - a2*y[n-2]) / a0`
computed from that channel's stored history, and then shifts the history
(`x[n-2] := x[n-1]`, `x[n-1] := x[n]`, and the same for `y`). -/
theorem process_sample_direct_form_one (s : Biquad) (l r : ℝ) :
    (s.process_sample l r).1.1 =
      (s.coeffs.b0 * l + s.coeffs.b1 * s.input_history0.left +
        s.coeffs.b2 * s.input_history1.left -
        s.coeffs.a1 * s.output_history0.left -
        s.coeffs.a2 * s.output_history1.left) / s.coeffs.a0 ∧
    (s.process_sample l r).1.2 =
      (s.coeffs.b0 * r + s.coeffs.b1 * s.input_history0.right +
        s.coeffs.b2 * s.input_history1.right -
        s.coeffs.a1 * s.output_history0.right -
        s.coeffs.a2 * s.output_history1.right) / s.coeffs.a0 ∧
    (s.process_sample l r).2.input_history1.left = s.input_history0.left ∧
    (s.process_sample l r).2.input_history0.left = l ∧
    (s.process_sample l r).2.output_history1.left = s.output_history0.left ∧
    (s.process_sample l r).2.output_history0.left = (s.process_sample l r).1.1 ∧
    (s.process_sample l r).2.input_history1.right = s.input_history0.right ∧
    (s.process_sample l r).2.input_history0.right = r ∧
    (s.process_sample l r).2.output_history1.right = s.output_history0.right ∧
    (s.process_sample l r).2.output_history0.right = (s.process_sample l r).1.2 := by
  refine ⟨?_, ?_, rfl, rfl, rfl, rfl, rfl, rfl, rfl, rfl⟩ <;>
    · simp only [Biquad.process_sample]
      ring

/-- C3: Biquad::update with all four parameters equal to the stored values
is a no-op: the coefficients and the whole filter state (parameters and
history) are unchanged, across any number N of consecutive such calls. -/
theorem update_unchanged_noop (s : Biquad) (N : ℕ) :
    (fun t : Biquad =>
        t.update s.sample_rate s.center_freq s.gain_db s.q_factor)^[N] s = s := by
  have h1 : s.update s.sample_rate s.center_freq s.gain_db s.q_factor = s := by
    simp [Biquad.update]
  exact Function.iterate_fixed h1 N

/-- C5: the dry/wet stage computes
`output = dry_gain * original + wet_gain * filtered` with
`dry_gain = 1 - wetMix` and `wet_gain = wetMix` for `wetMix` in [0,1]; at
`wetMix = 0` it reproduces the input exactly and at `wetMix = 1` the fully
filtered signal exactly. -/
theorem dry_wet_crossfade (wetMix original filtered : ℝ)
    (h0 : 0 ≤ wetMix) (h1 : wetMix ≤ 1) :
    mixSample wetMix original filtered =
      (1 - wetMix) * original + wetMix * filtered ∧
    mixSample 0 original filtered = original ∧
    mixSample 1 original filtered = filtered := by
  refine ⟨?_, ?_, ?_⟩ <;> simp [mixSample] <;> ring

theorem dry_wet_crossfade_witness :
    (0 : ℝ) ≤ 1 / 2 ∧ (1 / 2 : ℝ) ≤ 1 ∧
    (mixSample (1 / 2) 4 8 = (1 - 1 / 2) * 4 + (1 / 2) * 8 ∧
      mixSample 0 4 8 = 4 ∧ mixSample 1 4 8 = 8) :=
  ⟨by norm_num, by norm_num,
    dry_wet_crossfade (1 / 2) 4 8 (by norm_num) (by norm_num)⟩

/-- C10: Biquad::new zero-initializes all four history entries and computes
coefficients from the constructor parameters with
`omega = 2*pi*centerFreq/sampleRate` and `alpha = sin(omega)/(2*Q)`; a
freshly constructed filter's first process_sample output is
`(b0/a0) * input` on each channel. -/
theorem new_zero_history_first_output (sr cf g q : ℝ) (t : FilterType)
    (l r : ℝ) :
    (Biquad.new sr cf g q t).input_history0 = ⟨0, 0⟩ ∧
    (Biquad.new sr cf g q t).input_history1 = ⟨0, 0⟩ ∧
    (Biquad.new sr cf g q t).output_history0 = ⟨0, 0⟩ ∧
    (Biquad.new sr cf g q t).output_history1 = ⟨0, 0⟩ ∧
    (Biquad.new sr cf g q t).coeffs =
      BiquadCoefficients.new t
        (Real.sin (2 * Real.pi * cf / sr) / (2 * q)) (2 * Real.pi * cf / sr) g ∧
    ((Biquad.new sr cf g q t).process_sample l r).1 =
      (((Biquad.new sr cf g q t).coeffs.b0 / (Biquad.new sr cf g q t).coeffs.a0) * l,
        ((Biquad.new sr cf g q t).coeffs.b0 / (Biquad.new sr cf g q t).coeffs.a0) * r) := by
  refine ⟨rfl, rfl, rfl, rfl, rfl, ?_⟩
  simp [Biquad.new, Biquad.process_sample]

/-- The concrete scenario filter of the spec's round-trip test:
Biquad::new(44100, 1000, 0, 0.707, Peak). -/
def scenarioFilter : Biquad := Biquad.new 44100 1000 0 0.707 .Peak

/-- C6: for Biquad::new(44100, 1000, 0, 0.707, Peak) fed the impulse
input sequence starting [1, 0, ...], the first output sample equals
`b0/a0` and the second equals `(b1 - a1*y0)/a0` where `y0` is the first
output, on both channels. -/
theorem scenario_impulse_taps :
    (scenarioFilter.process_sample 1 1).1.1 =
      scenarioFilter.coeffs.b0 / scenarioFilter.coeffs.a0 ∧
    (scenarioFilter.process_sample 1 1).1.2 =
      scenarioFilter.coeffs.b0 / scenarioFilter.coeffs.a0 ∧
    ((scenarioFilter.process_sample 1 1).2.process_sample 0 0).1.1 =
      (scenarioFilter.coeffs.b1 -
        scenarioFilter.coeffs.a1 * ((scenarioFilter.process_sample 1 1).1.1)) /
        scenarioFilter.coeffs.a0 ∧
    ((scenarioFilter.process_sample 1 1).2.process_sample 0 0).1.2 =
      (scenarioFilter.coeffs.b1 -
        scenarioFilter.coeffs.a1 * ((scenarioFilter.process_sample 1 1).1.2)) /
        scenarioFilter.coeffs.a0 := by
  have hist0 : scenarioFilter.input_history0 = ⟨0, 0⟩ := rfl
  have hist1 : scenarioFilter.input_history1 = ⟨0, 0⟩ := rfl
  have hist2 : scenarioFilter.output_history0 = ⟨0, 0⟩ := rfl
  have hist3 : scenarioFilter.output_history1 = ⟨0, 0⟩ := rfl
  refine ⟨?_, ?_, ?_, ?_⟩ <;>
    · simp only [Biquad.process_sample, hist0, hist1, hist2, hist3]
      ring

/-- C9: the two channels of Biquad::process_sample are processed
independently while sharing one set of coefficients: two runs that agree on
the coefficients, the right input and the right-channel history produce
identical right outputs and identical post-call right-channel history, no
matter how the left input and left-channel history differ -- and
symmetrically for the left channel. -/
theorem channel_noninterference (s t : Biquad) (l1 r1 l2 r2 : ℝ)
    (hc : s.coeffs = t.coeffs) :
    (r1 = r2 →
      s.input_history0.right = t.input_history0.right →
      s.input_history1.right = t.input_history1.right →
      s.output_history0.right = t.output_history0.right →
      s.output_history1.right = t.output_history1.right →
      (s.process_sample l1 r1).1.2 = (t.process_sample l2 r2).1.2 ∧
      (s.process_sample l1 r1).2.input_history0.right =
        (t.process_sample l2 r2).2.input_history0.right ∧
      (s.process_sample l1 r1).2.input_history1.right =
        (t.process_sample l2 r2).2.input_history1.right ∧
      (s.process_sample l1 r1).2.output_history0.right =
        (t.process_sample l2 r2).2.output_history0.right ∧
      (s.process_sample l1 r1).2.output_history1.right =
        (t.process_sample l2 r2).2.output_history1.right) ∧
    (l1 = l2 →
      s.input_history0.left = t.input_history0.left →
      s.input_history1.left = t.input_history1.left →
      s.output_history0.left = t.output_history0.left →
      s.output_history1.left = t.output_history1.left →
      (s.process_sample l1 r1).1.1 = (t.process_sample l2 r2).1.1 ∧
      (s.process_sample l1 r1).2.input_history0.left =
        (t.process_sample l2 r2).2.input_history0.left ∧
      (s.process_sample l1 r1).2.input_history1.left =
        (t.process_sample l2 r2).2.input_history1.left ∧
      (s.process_sample l1 r1).2.output_history0.left =
        (t.process_sample l2 r2).2.output_history0.left ∧
      (s.process_sample l1 r1).2.output_history1.left =
        (t.process_sample l2 r2).2.output_history1.left) := by
  constructor <;>
    · intro hin h1 h2 h3 h4
      simp only [Biquad.process_sample]
      rw [hc, hin, h1, h2, h3, h4]
      exact ⟨rfl, rfl, rfl, rfl, rfl⟩

/-- A second concrete filter state, identical to `testFilter` on the right
channel and the coefficients but with different left input history. -/
def testFilterAltLeft : Biquad :=
  { testFilter with
    input_history0 := ⟨3, 0⟩
    input_history1 := ⟨5, 0⟩
    output_history0 := ⟨7, 0⟩
    output_history1 := ⟨9, 0⟩ }

theorem channel_noninterference_witness :
    (testFilter.process_sample 11 13).1.2 =
      (testFilterAltLeft.process_sample 17 13).1.2 ∧
    (testFilter.process_sample 11 13).2.input_history0.right =
      (testFilterAltLeft.process_sample 17 13).2.input_history0.right :=
  ⟨((channel_noninterference testFilter testFilterAltLeft 11 13 17 13
      rfl).1 rfl rfl rfl rfl rfl).1,
    (((channel_noninterference testFilter testFilterAltLeft 11 13 17 13
      rfl).1 rfl rfl rfl rfl rfl).2).1⟩

/-- C2 counterexample: at `omega = pi/2`, `alpha = 1`, `gainDb = 40` --
inside the claimed domain `omega` in (0, pi), `alpha > 0` -- the Peak `b0`
produced by the solver is `1 + sqrt 10`, not the `1 + alpha * A = 11`
demanded by the claim's amplitude factor `A = 10^(gainDb/40)`. -/
theorem peak_amplitude_cex :
    (0 : ℝ) < Real.pi / 2 ∧ Real.pi / 2 < Real.pi ∧ (0 : ℝ) < 1 ∧
    (BiquadCoefficients.new .Peak 1 (Real.pi / 2) 40).b0 ≠
      1 + 1 * (10 : ℝ) ^ ((40 : ℝ) / 40) := by
  have hp := Real.pi_pos
  refine ⟨by linarith, by linarith, by norm_num, ?_⟩
  have h40 : ((40 : ℝ) / 40) = 1 := by norm_num
  have hsq : Real.sqrt 10 < 10 := by
    have h100 : (10 : ℝ) = Real.sqrt (10 ^ 2) := by
      rw [Real.sqrt_sq] <;> norm_num
    calc Real.sqrt 10 < Real.sqrt (10 ^ 2) :=
          Real.sqrt_lt_sqrt (by norm_num) (by norm_num)
      _ = 10 := h100.symm
  simp only [BiquadCoefficients.new, h40, Real.rpow_one]
  intro hEq
  nlinarith [hsq]

/-- C2 (amended): for the Peak filter type the solver returns
`b0 = 1 + alpha*A`, `b1 = -2*cos(omega)`, `b2 = 1 - alpha*A`,
`a0 = 1 + alpha/A`, `a1 = -2*cos(omega)`, `a2 = 1 - alpha/A`, where the
amplitude factor is `A = sqrt(10^(gainDb/40)) = 10^(gainDb/80)`. -/
theorem peak_coefficients (omega alpha gainDb : ℝ)
    (h1 : 0 < omega) (h2 : omega < Real.pi) (h3 : 0 < alpha) :
    BiquadCoefficients.new .Peak alpha omega gainDb =
      { b0 := 1 + alpha * (10 : ℝ) ^ (gainDb / 80)
        b1 := -2 * Real.cos omega
        b2 := 1 - alpha * (10 : ℝ) ^ (gainDb / 80)
        a0 := 1 + alpha / (10 : ℝ) ^ (gainDb / 80)
        a1 := -2 * Real.cos omega
        a2 := 1 - alpha / (10 : ℝ) ^ (gainDb / 80) } := by
  have hA : Real.sqrt ((10 : ℝ) ^ (gainDb / 40)) = (10 : ℝ) ^ (gainDb / 80) := by
    rw [Real.sqrt_eq_rpow, ← Real.rpow_mul (by norm_num : (0 : ℝ) ≤ 10)]
    congr 1
    ring
  simp [BiquadCoefficients.new, hA]

theorem peak_coefficients_witness :
    (0 : ℝ) < Real.pi / 2 ∧ Real.pi / 2 < Real.pi ∧ (0 : ℝ) < 1 ∧
    BiquadCoefficients.new .Peak 1 (Real.pi / 2) 0 =
      { b0 := 1 + 1 * (10 : ℝ) ^ ((0 : ℝ) / 80)
        b1 := -2 * Real.cos (Real.pi / 2)
        b2 := 1 - 1 * (10 : ℝ) ^ ((0 : ℝ) / 80)
        a0 := 1 + 1 / (10 : ℝ) ^ ((0 : ℝ) / 80)
        a1 := -2 * Real.cos (Real.pi / 2)
        a2 := 1 - 1 / (10 : ℝ) ^ ((0 : ℝ) / 80) } := by
  have hp := Real.pi_pos
  exact ⟨by linarith, by linarith, by norm_num,
    peak_coefficients (Real.pi / 2) 1 0 (by linarith) (by linarith) (by norm_num)⟩

/-- All four history entries of a Biquad are zero. -/
def Biquad.zeroHistory (b : Biquad) : Prop :=
  b.input_history0 = ⟨0, 0⟩ ∧ b.input_history1 = ⟨0, 0⟩ ∧
  b.output_history0 = ⟨0, 0⟩ ∧ b.output_history1 = ⟨0, 0⟩

/-- The state left behind by processing one silent (all-zero) sample pair. -/
def Biquad.silentStep (b : Biquad) : Biquad := (b.process_sample 0 0).2

/-- Every slot of an InterleavedBiquad has zero history. -/
def InterleavedBiquad.zeroHistory (s : InterleavedBiquad) : Prop :=
  ∀ b ∈ s.slots, b.zeroHistory

/-- The interleaved state left behind by one silent sample pair. -/
def InterleavedBiquad.silentStep (s : InterleavedBiquad) : InterleavedBiquad :=
  (s.process_sample 0 0).2

theorem biquad_silent_one (b : Biquad) (h : b.zeroHistory) :
    (b.process_sample 0 0).1 = (0, 0) ∧ (b.process_sample 0 0).2.zeroHistory := by
  obtain ⟨h0, h1, h2, h3⟩ := h
  simp [Biquad.process_sample, Biquad.zeroHistory, h0, h1, h2, h3]

theorem forall_mem_set {α : Type} {P : α → Prop} :
    ∀ (l : List α) (i : ℕ) (a : α), (∀ x ∈ l, P x) → P a → ∀ x ∈ l.set i a, P x := by
  intro l
  induction l with
  | nil => intro i a _ _ x hx; simp at hx
  | cons y ys ih =>
      intro i a hl ha x hx
      cases i with
      | zero =>
          simp only [List.set_cons_zero] at hx
          rcases List.mem_cons.mp hx with hx | hx
          · exact hx ▸ ha
          · exact hl x (List.mem_cons_of_mem y hx)
      | succ j =>
          simp only [List.set_cons_succ] at hx
          rcases List.mem_cons.mp hx with hx | hx
          · exact hx ▸ hl y (List.mem_cons_self y ys)
          · exact ih j a (fun z hz => hl z (List.mem_cons_of_mem y hz)) ha x hx

theorem interleaved_silent_one (s : InterleavedBiquad) (h : s.zeroHistory) :
    (s.process_sample 0 0).1 = (0, 0) ∧
    (s.process_sample 0 0).2.zeroHistory := by
  unfold InterleavedBiquad.process_sample
  cases hg : s.slots[s.index]? with
  | none => exact ⟨rfl, h⟩
  | some b =>
      have hb : b ∈ s.slots := by
        obtain ⟨hlt, he⟩ := List.getElem?_eq_some.mp hg
        exact he ▸ List.getElem_mem hlt
      have hone := biquad_silent_one b (h b hb)
      refine ⟨hone.1, ?_⟩
      intro x hx
      exact forall_mem_set s.slots s.index _ h hone.2 x hx

/-- C7: feeding any number of all-zero input pairs through a configured
Biquad or InterleavedBiquad whose history is at zero yields all-zero output
at every sample and leaves all history buffers at zero afterward. -/
theorem silent_signal_invariant (b : Biquad) (s : InterleavedBiquad) (n : ℕ)
    (hb : b.zeroHistory) (hs : s.zeroHistory) :
    (Biquad.silentStep^[n] b).zeroHistory ∧
    ((Biquad.silentStep^[n] b).process_sample 0 0).1 = (0, 0) ∧
    (InterleavedBiquad.silentStep^[n] s).zeroHistory ∧
    ((InterleavedBiquad.silentStep^[n] s).process_sample 0 0).1 = (0, 0) := by
  have hbn : ∀ m : ℕ, (Biquad.silentStep^[m] b).zeroHistory := by
    intro m
    induction m with
    | zero => simpa using hb
    | succ k ih =>
        rw [Function.iterate_succ_apply']
        exact (biquad_silent_one _ ih).2
  have hsn : ∀ m : ℕ, (InterleavedBiquad.silentStep^[m] s).zeroHistory := by
    intro m
    induction m with
    | zero => simpa using hs
    | succ k ih =>
        rw [Function.iterate_succ_apply']
        exact (interleaved_silent_one _ ih).2
  exact ⟨hbn n, (biquad_silent_one _ (hbn n)).1, hsn n,
    (interleaved_silent_one _ (hsn n)).1⟩

theorem silent_signal_invariant_witness :
    (Biquad.silentStep^[3] testFilter).zeroHistory ∧
    ((Biquad.silentStep^[3] testFilter).process_sample 0 0).1 = (0, 0) ∧
    (InterleavedBiquad.silentStep^[3] testIBand).zeroHistory ∧
    ((InterleavedBiquad.silentStep^[3] testIBand).process_sample 0 0).1 = (0, 0) :=
  silent_signal_invariant testFilter testIBand 3
    ⟨rfl, rfl, rfl, rfl⟩
    (by intro x hx
        simp only [testIBand, List.mem_singleton] at hx
        exact hx ▸ ⟨rfl, rfl, rfl, rfl⟩)

theorem increment_mod_iterate (N : ℕ) (hN : 0 < N) :
    ∀ (k i : ℕ), i < N → (fun j => (j + 1) % N)^[k] i = (i + k) % N := by
  intro k
  induction k with
  | zero =>
      intro i hi
      simpa using (Nat.mod_eq_of_lt hi).symm
  | succ m ih =>
      intro i hi
      rw [Function.iterate_succ_apply]
      have h1 : (i + 1) % N < N := Nat.mod_lt _ hN
      have h2 := ih ((i + 1) % N) h1
      simp only at h2 ⊢
      rw [h2, Nat.mod_add_mod]
      congr 1
      omega

theorem increment_index_iterate (s : InterleavedBiquad) (k : ℕ) :
    (InterleavedBiquad.increment_index^[k] s).slots = s.slots ∧
    (InterleavedBiquad.increment_index^[k] s).index =
      (fun j => (j + 1) % s.slots.length)^[k] s.index := by
  induction k with
  | zero => exact ⟨rfl, rfl⟩
  | succ m ih =>
      rw [Function.iterate_succ_apply', Function.iterate_succ_apply']
      refine ⟨ih.1, ?_⟩
      simp only [InterleavedBiquad.increment_index, ih.1, ih.2]

/-- C8: for every InterleavedBiquad with interleave depth N in 1..10 whose
active slot index lies in [0, N), increment_index advances the index by one
modulo N and keeps it in [0, N); calling increment_index exactly N times
returns the active slot to its original index. -/
theorem increment_index_cyclic (s : InterleavedBiquad)
    (hmin : 1 ≤ s.slots.length) (hmax : s.slots.length ≤ 10)
    (hidx : s.index < s.slots.length) :
    s.increment_index.index = (s.index + 1) % s.slots.length ∧
    s.increment_index.index < s.slots.length ∧
    (InterleavedBiquad.increment_index^[s.slots.length] s).index = s.index := by
  have hN : 0 < s.slots.length := hmin
  refine ⟨rfl, Nat.mod_lt _ hN, ?_⟩
  rw [(increment_index_iterate s s.slots.length).2,
    increment_mod_iterate s.slots.length hN s.slots.length s.index hidx,
    Nat.add_mod_right]
  exact Nat.mod_eq_of_lt hidx

theorem increment_index_cyclic_witness :
    1 ≤ (testIBand.slots.length) ∧ testIBand.slots.length ≤ 10 ∧
    testIBand.index < testIBand.slots.length ∧
    (testIBand.increment_index.index = (testIBand.index + 1) % testIBand.slots.length ∧
      testIBand.increment_index.index < testIBand.slots.length ∧
      (InterleavedBiquad.increment_index^[testIBand.slots.length] testIBand).index =
        testIBand.index) :=
  ⟨by simp [testIBand], by simp [testIBand], by simp [testIBand],
    increment_index_cyclic testIBand (by simp [testIBand]) (by simp [testIBand])
      (by simp [testIBand])⟩

theorem bandPass_sentinel {σ : Type} (step : σ → ℝ → ℝ → (ℝ × ℝ) × σ)
    (os : ℕ) (s : σ) (in_l in_r temp_r : ℝ) :
    bandPass step os s in_l in_r (-2) temp_r = repeatStep step (os + 1) s in_l in_r := by
  simp [bandPass, repeatStep]

theorem bandPass_no_sentinel {σ : Type} (step : σ → ℝ → ℝ → (ℝ × ℝ) × σ)
    (os : ℕ) (s : σ) (in_l in_r temp_l temp_r : ℝ) (h : temp_l ≠ -2) :
    bandPass step os s in_l in_r temp_l temp_r =
      repeatStep step (os + 1) s temp_l temp_r := by
  simp [bandPass, repeatStep, if_neg h]

theorem bandChain_eq_cascade {σ : Type} (step : σ → ℝ → ℝ → (ℝ × ℝ) × σ)
    (os : ℕ) (in_l in_r : ℝ) :
    ∀ (bands : List σ) (temp_l temp_r : ℝ), temp_l ≠ -2 →
      (∀ x ∈ cascadeLefts step os bands temp_l temp_r, x ≠ -2) →
      bandChain step os in_l in_r bands temp_l temp_r =
        specCascade step os bands temp_l temp_r := by
  intro bands
  induction bands with
  | nil => intro temp_l temp_r _ _; rfl
  | cons s rest ih =>
      intro temp_l temp_r h hl
      have hhead : (repeatStep step (os + 1) s temp_l temp_r).1.1 ≠ -2 := by
        apply hl
        simp [cascadeLefts]
      have htail : ∀ x ∈ cascadeLefts step os rest
          (repeatStep step (os + 1) s temp_l temp_r).1.1
          (repeatStep step (os + 1) s temp_l temp_r).1.2, x ≠ -2 := by
        intro x hx
        apply hl
        simp only [cascadeLefts, List.mem_cons]
        exact Or.inr hx
      simp only [bandChain, specCascade]
      rw [bandPass_no_sentinel step os s in_l in_r temp_l temp_r h,
        ih _ _ hhead htail]

theorem processBands_eq_cascade {σ : Type} (step : σ → ℝ → ℝ → (ℝ × ℝ) × σ)
    (os : ℕ) (bands : List σ) (in_l in_r : ℝ) (hne : bands ≠ [])
    (hl : ∀ x ∈ cascadeLefts step os bands in_l in_r, x ≠ -2) :
    processBands step os bands in_l in_r = specCascade step os bands in_l in_r := by
  cases bands with
  | nil => exact absurd rfl hne
  | cons s rest =>
      have hhead : (repeatStep step (os + 1) s in_l in_r).1.1 ≠ -2 := by
        apply hl
        simp [cascadeLefts]
      have htail : ∀ x ∈ cascadeLefts step os rest
          (repeatStep step (os + 1) s in_l in_r).1.1
          (repeatStep step (os + 1) s in_l in_r).1.2, x ≠ -2 := by
        intro x hx
        apply hl
        simp only [cascadeLefts, List.mem_cons]
        exact Or.inr hx
      simp only [processBands, bandChain, specCascade]
      rw [bandPass_sentinel step os s in_l in_r,
        bandChain_eq_cascade step os in_l in_r rest _ _ hhead htail]

/-- The band used in the concrete counterexample: LowPass at a quarter of
the sample rate (`omega = pi/2`, so the trigonometry is exact) with
`Q = 1/2`, giving coefficients `(1/2, 1, 1/2, 2, 0, 0)`: on zero history
the band outputs one quarter of its input. -/
def cexBand : Biquad := Biquad.new 4000 1000 0 (1 / 2) .LowPass

theorem cexBand_eq :
    cexBand =
      { biquad_type := .LowPass
        sample_rate := 4000
        center_freq := 1000
        gain_db := 0
        q_factor := 1 / 2
        input_history0 := ⟨0, 0⟩
        input_history1 := ⟨0, 0⟩
        output_history0 := ⟨0, 0⟩
        output_history1 := ⟨0, 0⟩
        coeffs := ⟨1 / 2, 1, 1 / 2, 2, 0, 0⟩ } := by
  have homega : 2 * Real.pi * 1000 / 4000 = Real.pi / 2 := by ring
  simp [cexBand, Biquad.new, BiquadCoefficients.new, homega,
    Real.cos_pi_div_two, Real.sin_pi_div_two]
  norm_num

/-- C4 counterexample: with all five bands set to the LowPass band above
(a valid band-parameter assignment) and incoming left sample `-8.0`, the
first band outputs exactly `-2.0` -- the sentinel the source initialised
`temp_l` with -- so every later band re-reads the original input instead of
the previous band's output: the processing loop returns `-2.0` on the left
channel while the claimed cascade returns `-1/128`. -/
theorem band_cascade_cex :
    (processBands biquadStep 0 [cexBand, cexBand, cexBand, cexBand, cexBand]
        (-8) 0).1.1 = -2 ∧
    (specCascade biquadStep 0 [cexBand, cexBand, cexBand, cexBand, cexBand]
        (-8) 0).1.1 = -1 / 128 ∧
    (processBands biquadStep 0 [cexBand, cexBand, cexBand, cexBand, cexBand]
        (-8) 0).1.1 ≠
      (specCascade biquadStep 0 [cexBand, cexBand, cexBand, cexBand, cexBand]
        (-8) 0).1.1 := by
  have h1 : (processBands biquadStep 0 [cexBand, cexBand, cexBand, cexBand,
      cexBand] (-8) 0).1.1 = -2 := by
    rw [cexBand_eq]
    norm_num [processBands, bandChain, bandPass, repeatStep, biquadStep,
      Biquad.process_sample]
  have h2 : (specCascade biquadStep 0 [cexBand, cexBand, cexBand, cexBand,
      cexBand] (-8) 0).1.1 = -1 / 128 := by
    rw [cexBand_eq]
    norm_num [specCascade, repeatStep, biquadStep, Biquad.process_sample]
  exact ⟨h1, h2, by rw [h1, h2]; norm_num⟩

/-- C4 (amended): for every incoming stereo sample and band-parameter
assignment, the bands are applied in fixed left-to-right order, each band
running its filtering pass `1 + k` times on its own just-produced output
(with increment_index called after every pass in the interleaved case), the
full output of band i feeding band i+1 and the bands never summed in
parallel -- PROVIDED no band's left output equals the `-2.0` sentinel value;
when a band's left output is exactly `-2.0`, the next band instead re-reads
the original input pair. -/
theorem band_cascade_order (bands : List Biquad)
    (ibands : List InterleavedBiquad) (in_l in_r : ℝ) (os : ℕ)
    (hb : bands ≠ []) (hib : ibands ≠ [])
    (hl : ∀ x ∈ cascadeLefts biquadStep os bands in_l in_r, x ≠ -2)
    (hil : ∀ x ∈ cascadeLefts interleavedStep os ibands in_l in_r, x ≠ -2) :
    processBands biquadStep os bands in_l in_r =
      specCascade biquadStep os bands in_l in_r ∧
    processBands interleavedStep os ibands in_l in_r =
      specCascade interleavedStep os ibands in_l in_r :=
  ⟨processBands_eq_cascade biquadStep os bands in_l in_r hb hl,
    processBands_eq_cascade interleavedStep os ibands in_l in_r hib hil⟩

theorem band_cascade_order_witness :
    ([testFilter, testFilter, testFilter, testFilter, testFilter] ≠
        ([] : List Biquad)) ∧
    ([testIBand, testIBand, testIBand, testIBand, testIBand] ≠
        ([] : List InterleavedBiquad)) ∧
    (∀ x ∈ cascadeLefts biquadStep 0
        [testFilter, testFilter, testFilter, testFilter, testFilter] 1 1,
      x ≠ -2) ∧
    (∀ x ∈ cascadeLefts interleavedStep 0
        [testIBand, testIBand, testIBand, testIBand, testIBand] 1 1,
      x ≠ -2) ∧
    (processBands biquadStep 0
        [testFilter, testFilter, testFilter, testFilter, testFilter] 1 1 =
      specCascade biquadStep 0
        [testFilter, testFilter, testFilter, testFilter, testFilter] 1 1 ∧
    processBands interleavedStep 0
        [testIBand, testIBand, testIBand, testIBand, testIBand] 1 1 =
      specCascade interleavedStep 0
        [testIBand, testIBand, testIBand, testIBand, testIBand] 1 1) := by
  have hbl : ∀ x ∈ cascadeLefts biquadStep 0
      [testFilter, testFilter, testFilter, testFilter, testFilter] 1 1,
      x ≠ -2 := by
    norm_num [cascadeLefts, repeatStep, biquadStep, Biquad.process_sample,
      testFilter]
  have hil : ∀ x ∈ cascadeLefts interleavedStep 0
      [testIBand, testIBand, testIBand, testIBand, testIBand] 1 1,
      x ≠ -2 := by
    norm_num [cascadeLefts, repeatStep, interleavedStep,
      InterleavedBiquad.process_sample, InterleavedBiquad.increment_index,
      Biquad.process_sample, testIBand, testFilter]
  exact ⟨by simp, by simp, hbl, hil,
    band_cascade_order _ _ 1 1 0 (by simp) (by simp) hbl hil⟩

end

end Interleaf
